import Mathlib

/-!
Verification of the calendar availability and preference-aware scheduling
engine of the Selfcare-Toolkit backend.

The embedding models instants as natural numbers counting minutes since an
arbitrary epoch in the home timezone (the code normalizes every datetime to
one zone, `America/Los_Angeles`, before comparing; the accepted time grammar
is minute-precision `YYYY-MM-DDTHH:MM`).  A calendar day is 1440 minutes and
a day boundary sits at every multiple of 1440.

Sources embedded below:
* `get_free_slots`           — src/backend/calendar_service.py, lines 38-247
* `check_time_conflict`      — src/backend/calendar_service.py, lines 250-367
* start-time resolution of `create_calendar_event`
                             — src/backend/calendar_service.py, lines 444-561
* `analyze_preferred_times`  — src/backend/agent_suggestions.py, lines 220-278
* `_execute_calendar_block`  — src/backend/actions.py, lines 89-153
-/

/-- A time value attached to a Google Calendar event, as the code inspects it:
`dateTime t` models a present, parseable RFC3339 `dateTime` field (value `t`
in minutes); `date t` models an all-day `date` field (the code in
`get_free_slots` parses it to midnight of that day, value `t`); `malformed`
models a present `dateTime` field whose string `datetime.fromisoformat`
rejects (a `ValueError` at parse time). -/
inductive GTime
  | dateTime (t : Nat)
  | date (t : Nat)
  | malformed
deriving DecidableEq, Repr

/-- A calendar event as returned by the external `BusyIntervalSource`
(`service.events().list`), restricted to the fields the engine reads. -/
structure GEvent where
  gstart : GTime
  gend : GTime
  summary : String
deriving DecidableEq, Repr

/-- The criterion `check_time_conflict` uses to recognize an all-day event at
line 295: the event's start has a `date` instead of a `dateTime`. -/
def GEvent.isAllDay (ev : GEvent) : Bool :=
  match ev.gstart with
  | GTime.date _ => true
  | _ => false

/-- The parse of one event performed inside the `get_free_slots` sweep
(lines 155-183): `dateTime` and `date` values both yield instants; a
malformed value raises, modelled as `none`. -/
def GEvent.intervalOf (ev : GEvent) : Option (Nat × Nat) :=
  match ev.gstart, ev.gend with
  | GTime.dateTime s, GTime.dateTime e => some (s, e)
  | GTime.dateTime s, GTime.date e => some (s, e)
  | GTime.date s, GTime.dateTime e => some (s, e)
  | GTime.date s, GTime.date e => some (s, e)
  | _, _ => none

/-- The parse the `check_time_conflict` scan performs (lines 293-315): the
event participates in the overlap test only when both ends carry a present,
parseable `dateTime`; all-day events and parse failures are skipped. -/
def GEvent.timedOf (ev : GEvent) : Option (Nat × Nat) :=
  match ev.gstart, ev.gend with
  | GTime.dateTime s, GTime.dateTime e => some (s, e)
  | _, _ => none

/-- Parsing the whole event list, as the sweep of `get_free_slots` does
inline: the first malformed value raises and the surrounding
`except Exception` handler (lines 245-247) makes the whole call return `[]`,
so the parse of the list as a whole is `none` when any event is malformed. -/
def parseAll : List GEvent → Option (List (Nat × Nat))
  | [] => some []
  | ev :: rest =>
    match ev.intervalOf, parseAll rest with
    | some p, some ps => some (p :: ps)
    | _, _ => none

/-- One returned free slot (`{"start": ..., "end": ..., "duration_minutes": ...}`),
with the ISO strings replaced by their instants. -/
structure FreeSlot where
  startT : Nat
  endT : Nat
  durationMinutes : Nat
deriving DecidableEq, Repr

/-- The sweep state of `get_free_slots`: the accumulated `free_slots` list and
the cursor `current_time_pacific`. -/
structure SweepState where
  slots : List FreeSlot
  cur : Nat
deriving DecidableEq, Repr

/-- One iteration of the event loop of `get_free_slots` (lines 155-200):
if there is a gap before this event that ends in the future and is long
enough, emit it (duration `int(gap_duration)`, start clamped to `now`), then
advance the cursor to the end of the event when that lies beyond it. -/
def sweepStep (dur now : Nat) (st : SweepState) (iv : Nat × Nat) : SweepState :=
  let slots :=
    if st.cur < iv.1 ∧ now < iv.1 ∧ dur ≤ iv.1 - st.cur then
      st.slots ++ [⟨max st.cur now, iv.1, iv.1 - st.cur⟩]
    else st.slots
  let cur := if st.cur < iv.2 then iv.2 else st.cur
  ⟨slots, cur⟩

/-- The core computation of `get_free_slots` on already-parsed busy intervals
(lines 142-243): clip the window start to `now`, sweep the events, emit the
trailing gap up to the window end, then drop every slot that does not start
strictly after `now`. -/
def get_free_slots_core (ivs : List (Nat × Nat)) (startDt endDt dur now : Nat) :
    List FreeSlot :=
  let cur0 := if startDt < now then now else startDt
  let st := ivs.foldl (sweepStep dur now) ⟨[], cur0⟩
  let slots :=
    if st.cur < endDt ∧ dur ≤ endDt - st.cur ∧ max st.cur now < endDt then
      st.slots ++ [⟨max st.cur now, endDt, endDt - st.cur⟩]
    else st.slots
  slots.filter (fun sl => decide (now < sl.startT))

/-- `get_free_slots` (calendar_service.py, lines 38-247).  The textual date
parsing of the `start_date`/`end_date` arguments (lines 61-119) is elided:
the query window is passed as the instants `startDt`/`endDt` it produces.
`available` is `CALENDAR_AVAILABLE`; `fetch` is the outcome of the busy
interval fetch, `none` when `service.events().list(...)` raises (the outer
`except Exception` returns `[]` in that case, as does `CALENDAR_AVAILABLE`
being false at lines 54-56). -/
def get_free_slots (available : Bool) (fetch : Option (List GEvent))
    (startDt endDt dur now : Nat) : List FreeSlot :=
  if available = false then []
  else
    match fetch with
    | none => []
    | some events =>
      match parseAll events with
      | none => []
      | some ivs => get_free_slots_core ivs startDt endDt dur now

/-- A single quote character, written by code so the source file carries no
bare apostrophe inside a string literal. -/
def squote : String := String.singleton (Char.ofNat 39)

/-- Zero-padded two-digit rendering used by `strftime` with `%I`/`%M`. -/
def pad2 (n : Nat) : String :=
  if n < 10 then "0" ++ toString n else toString n

/-- `strftime` with format `%I:%M %p` applied to an instant in the home
timezone (12-hour clock with AM/PM). -/
def fmt12 (t : Nat) : String :=
  let h24 := t / 60 % 24
  let mi := t % 60
  let h12 := if h24 % 12 = 0 then 12 else h24 % 12
  let ampm := if h24 < 12 then "AM" else "PM"
  pad2 h12 ++ ":" ++ pad2 mi ++ " " ++ ampm

/-- The conflict message built at line 351 of calendar_service.py. -/
def conflictMsg (title : String) (s e : Nat) : String :=
  "Time slot conflicts with existing event: " ++ squote ++ title ++ squote ++
    " (" ++ fmt12 s ++ " - " ++ fmt12 e ++ " PST)"

/-- The scan of `check_time_conflict` over the fetched events
(lines 293-359): all-day events, events with a missing end `dateTime`, and
events whose times fail to parse are skipped (`continue`); the first event
with `candidate.start < busy.end and candidate.end > busy.start` yields
`(True, message)`; otherwise `(False, None)`. -/
def conflictScan (candS candE : Nat) : List GEvent → Bool × Option String
  | [] => (false, none)
  | ev :: rest =>
    match ev.gstart, ev.gend with
    | GTime.dateTime s, GTime.dateTime e =>
      if candS < e ∧ s < candE then (true, some (conflictMsg ev.summary s e))
      else conflictScan candS candE rest
    | _, _ => conflictScan candS candE rest

/-- `check_time_conflict` (calendar_service.py, lines 250-367). `available`
is `CALENDAR_AVAILABLE` (lines 260-261); `fetch` is `none` when the fetch of
busy events raises, in which case the outer handler returns
`(False, None)` (lines 364-367, fail-open). -/
def check_time_conflict (available : Bool) (fetch : Option (List GEvent))
    (candS candE : Nat) : Bool × Option String :=
  if available = false then (false, none)
  else
    match fetch with
    | none => (false, none)
    | some events => conflictScan candS candE events

/-- The recognized `start_time` vocabulary of `create_calendar_event`
(lines 444-551): the eight fixed keywords, or an explicit datetime that
parsed successfully to the local instant `t`.  Unrecognized strings raise
`ValueError` and are outside this type. -/
inductive StartTime
  | nowKw
  | in_1_hour
  | in_2_hours
  | today_morning
  | today_afternoon
  | today_evening
  | tomorrow_morning
  | tomorrow_afternoon
  | explicitT (t : Nat)
deriving DecidableEq, Repr

/-- The per-branch start-time computation of `create_calendar_event`
(lines 445-549), before the final safety check.  At minute granularity
`replace(second=0, microsecond=0)` is the identity;
`replace(hour=h, minute=0, ...)` of `t` is `t - t % 1440 + h * 60`;
`timedelta(days=1)` is `+ 1440`. -/
def resolve_start_time_raw (s : StartTime) (now : Nat) : Nat :=
  match s with
  | StartTime.nowKw =>
    let m := now % 60
    let rounded := (m / 5 + 1) * 5
    let start := if 60 ≤ rounded then now - m + 60 else now - m + rounded
    if start ≤ now then now + 5 else start
  | StartTime.in_1_hour => now + 60
  | StartTime.in_2_hours => now + 120
  | StartTime.today_morning =>
    let start := now - now % 1440 + 540
    if start ≤ now then now - now % 1440 + 1440 + 540 else start
  | StartTime.today_afternoon =>
    let start := now - now % 1440 + 840
    if start ≤ now then now - now % 1440 + 1440 + 840 else start
  | StartTime.today_evening =>
    let start := now - now % 1440 + 1140
    if start ≤ now then now - now % 1440 + 1440 + 1140 else start
  | StartTime.tomorrow_morning => now - now % 1440 + 1440 + 540
  | StartTime.tomorrow_afternoon => now - now % 1440 + 1440 + 840
  | StartTime.explicitT t => if t < now then t + 1440 else t

/-- The resolved start instant of `create_calendar_event`: the per-branch
value followed by the final safety check of lines 557-561
(`if start_dt <= now: start_dt = now + timedelta(minutes=5)`). -/
def resolve_start_time (s : StartTime) (now : Nat) : Nat :=
  let start := resolve_start_time_raw s now
  if start ≤ now then now + 5 else start

/-- One entry of the action history passed to `analyze_preferred_times`,
restricted to the fields it reads: `actionType`, `outcome`, and
`params.get('time_window', '')`. -/
structure ActionRec where
  actionType : String
  outcome : String
  time_window : String
deriving DecidableEq, Repr

/-- `pat` starts the character list `cs`. -/
def leadsWith : List Char → List Char → Bool
  | [], _ => true
  | _ :: _, [] => false
  | p :: ps, c :: cs => p == c && leadsWith ps cs

/-- `pat` occurs contiguously somewhere in the character list. -/
def occursIn (pat : List Char) : List Char → Bool
  | [] => leadsWith pat []
  | c :: cs => leadsWith pat (c :: cs) || occursIn pat cs

/-- Substring test, as the Python operator `in` on strings, computed on the
character lists. -/
def containsSub (s pat : String) : Bool :=
  occursIn pat.toList s.toList

/-- The hour field of `datetime.fromisoformat` applied to a time-window
string of the accepted shape `YYYY-MM-DDTHH:MM...` (the grammar of §6 of the
spec); strings not of this shape yield `none`, modelling the `ValueError`
branch of lines 244-248 of agent_suggestions.py.  The `replace('Z','+00:00')`
and the suffix beyond the minutes do not affect the hour. -/
def isoHour (tw : String) : Option Nat :=
  match tw.toList with
  | y1 :: y2 :: y3 :: y4 :: '-' :: mo1 :: mo2 :: '-' :: d1 :: d2 ::
      'T' :: h1 :: h2 :: ':' :: mi1 :: mi2 :: _ =>
    if y1.isDigit && y2.isDigit && y3.isDigit && y4.isDigit &&
        mo1.isDigit && mo2.isDigit && d1.isDigit && d2.isDigit &&
        h1.isDigit && h2.isDigit && mi1.isDigit && mi2.isDigit then
      let hh := (h1.toNat - 48) * 10 + (h2.toNat - 48)
      if hh < 24 then some hh else none
    else none
  | _ => none

/-- The hour extracted from one action's `time_window`
(agent_suggestions.py, lines 242-255): an ISO datetime contributes its hour;
otherwise the keywords `morning`/`afternoon`/`evening` contribute their
canonical hours 9/14/19; anything else contributes nothing. -/
def extractHour (tw : String) : Option Nat :=
  if tw.toList.contains 'T' then isoHour tw
  else if containsSub tw "morning" then some 9
  else if containsSub tw "afternoon" then some 14
  else if containsSub tw "evening" then some 19
  else none

/-- The `scheduled_hours` list of `analyze_preferred_times`
(lines 236-255): hours of confirmed `create_calendar_block` actions, in
history order. -/
def scheduledHours (recent : List ActionRec) : List Nat :=
  recent.filterMap (fun a =>
    if a.actionType = "create_calendar_block" ∧ a.outcome = "confirmed" then
      extractHour a.time_window
    else none)

/-- The key-insertion order of a Python `Counter`: distinct values in order
of first occurrence. -/
def dedupFirst (l : List Nat) : List Nat :=
  l.foldl (fun acc h => if h ∈ acc then acc else acc ++ [h]) []

/-- Insert into a list sorted descending by `key`, placing the new element
after existing elements with an equal key (the stability of
`Counter.most_common`, which is `heapq.nlargest` over the items and hence a
stable descending sort). -/
def insertDesc (key : Nat → Nat) (h : Nat) : List Nat → List Nat
  | [] => [h]
  | x :: xs => if key x < key h then h :: x :: xs else x :: insertDesc key h xs

/-- Stable descending sort by `key` via left-to-right insertion. -/
def sortDesc (key : Nat → Nat) (l : List Nat) : List Nat :=
  l.foldl (fun acc h => insertDesc key h acc) []

/-- The result record of `analyze_preferred_times`. -/
structure PreferredTimes where
  preferred_hours : List Nat
  preferred_time_of_day : Option String
  has_pattern : Bool
deriving DecidableEq, Repr

/-- `analyze_preferred_times` (agent_suggestions.py, lines 220-278).
`Counter(hs).most_common(3)` is the first three entries of the stable
descending-by-count sort of the distinct hours in first-occurrence order.
The float average comparison `avg_hour < c` is the exact rational comparison
`sum < c * length`.  The early return for an empty `recent_actions`
(line 232-233) produces the same record as the empty `scheduled_hours`
return, so both are covered by the `hs = []` branch. -/
def analyze_preferred_times (recent : List ActionRec) : PreferredTimes :=
  let hs := scheduledHours recent
  if hs = [] then ⟨[], none, false⟩
  else
    let mch := (sortDesc (fun h => hs.count h) (dedupFirst hs)).take 3
    let tod :=
      if hs.sum < 12 * hs.length then "morning"
      else if hs.sum < 17 * hs.length then "afternoon"
      else "evening"
    ⟨mch, some tod, 2 ≤ hs.length⟩

/-- Modelled from the spec (§4.4 and design note 3): the top three most
frequent hours with frequency ties broken by the smaller hour value.  Used
only to compare the spec's tie-breaking against the code's. -/
def insertSpecOrder (key : Nat → Nat) (h : Nat) : List Nat → List Nat
  | [] => [h]
  | x :: xs =>
    if key x < key h ∨ (key x = key h ∧ h < x) then h :: x :: xs
    else x :: insertSpecOrder key h xs

/-- Modelled from the spec: `preferredHours` per §4.4, top 3 most frequent
hours, ties broken by the smaller hour value. -/
def specPreferredHours (hs : List Nat) : List Nat :=
  ((dedupFirst hs).foldl (fun acc h => insertSpecOrder (fun k => hs.count k) h acc)
    []).take 3

/-- `CreateCalendarBlockParams` (actions.py, lines 14-19), with the pydantic
`int` field as an integer (so out-of-range values on either side exist). -/
structure CreateCalendarBlockParams where
  duration_minutes : Int
  time_window : Option String
  purpose : String
deriving DecidableEq, Repr

/-- The outcome of the `create_calendar_event` call made by
`_execute_calendar_block`: the success dict (carrying `event_id`,
`html_link`, `start`, `end`), the conflict error dict, or another error
dict. -/
inductive CreateOutcome
  | created (eventId htmlLink startS endS : String)
  | conflictErr (msg : String)
  | otherErr (msg : String)
deriving DecidableEq, Repr

/-- The result dict of `_execute_calendar_block`, restricted to the fields
the claims concern. -/
structure ExecResult where
  success : Bool
  message : String
  conflict : Bool
deriving DecidableEq, Repr

/-- `_execute_calendar_block` (actions.py, lines 89-153).  The pydantic
validation `Field(..., ge=5, le=240)` accepts exactly 5 ≤ d ≤ 240; on
failure the function returns the invalid-parameters message without calling
`create_calendar_event` (the `create` argument models that call's outcome,
and is only consulted after validation passes; the pydantic error detail in
the message is abbreviated). -/
def _execute_calendar_block (params : CreateCalendarBlockParams)
    (create : CreateOutcome) : ExecResult :=
  if 5 ≤ params.duration_minutes ∧ params.duration_minutes ≤ 240 then
    match create with
    | CreateOutcome.conflictErr msg => ⟨false, msg, true⟩
    | CreateOutcome.otherErr msg =>
      ⟨false, "Failed to create calendar event: " ++ msg, false⟩
    | CreateOutcome.created _ _ _ _ =>
      ⟨true, "Calendar event " ++ squote ++ params.purpose ++ squote ++
        " created successfully! Opening in a new tab...", false⟩
  else
    ⟨false,
      "Invalid calendar block parameters: duration_minutes must be between 5 and 240",
      false⟩

/-- A concrete fetched-event list used by witnesses: one ordinary timed
event from minute 60 to minute 90. -/
def exEvents : List GEvent := [⟨GTime.dateTime 60, GTime.dateTime 90, "Meeting"⟩]

/-- A concrete fetched-event list with a single all-day event covering day
zero, used to exhibit the behaviour of `get_free_slots` on all-day events. -/
def exAllDay : List GEvent := [⟨GTime.date 0, GTime.date 1440, "All Day"⟩]

/-- A concrete action history: four confirmed calendar blocks at hours
10, 10, 11, 12 (explicit timestamps) and one at 9 (`morning` keyword). -/
def exHistory : List ActionRec :=
  [⟨"create_calendar_block", "confirmed", "2024-01-05T10:00"⟩,
   ⟨"create_calendar_block", "confirmed", "2024-01-06T10:30"⟩,
   ⟨"create_calendar_block", "confirmed", "2024-01-05T11:00"⟩,
   ⟨"create_calendar_block", "confirmed", "2024-01-05T12:00"⟩,
   ⟨"create_calendar_block", "confirmed", "morning"⟩]

/-- `exHistory` reversed: the same multiset of extracted hours in the
opposite order. -/
def exHistoryRev : List ActionRec := exHistory.reverse

/-- Invariants of the event-loop fold of `get_free_slots`: the cursor never
moves backward and stays at or after `now`; after the fold it is at or after
every processed event's end; every slot emitted during the fold starts at
the cursor value it was emitted at (hence at or after the entry cursor), is
nonempty, reports exactly its length as `durationMinutes`, and meets the
minimum duration; and when the events are sorted by start, no emitted slot
overlaps any event of the list. -/
theorem sweep_foldl_spec (dur now : Nat) (ivs : List (Nat × Nat)) :
    ∀ st : SweepState, now ≤ st.cur →
      (now ≤ (ivs.foldl (sweepStep dur now) st).cur ∧
        st.cur ≤ (ivs.foldl (sweepStep dur now) st).cur) ∧
      (∀ iv ∈ ivs, iv.2 ≤ (ivs.foldl (sweepStep dur now) st).cur) ∧
      (∀ sl ∈ (ivs.foldl (sweepStep dur now) st).slots,
        sl ∈ st.slots ∨
          (st.cur ≤ sl.startT ∧ sl.startT < sl.endT ∧
            sl.durationMinutes = sl.endT - sl.startT ∧ dur ≤ sl.durationMinutes)) ∧
      (ivs.Pairwise (fun a b => a.1 ≤ b.1) →
        ∀ sl ∈ (ivs.foldl (sweepStep dur now) st).slots,
          sl ∈ st.slots ∨ ∀ iv ∈ ivs, iv.2 ≤ sl.startT ∨ sl.endT ≤ iv.1) := by
  induction ivs with
  | nil =>
    intro st hst
    simp only [List.foldl_nil]
    refine ⟨⟨hst, Nat.le_refl _⟩, ?_, ?_, ?_⟩
    · intro iv hiv; simp at hiv
    · intro sl hsl; exact Or.inl hsl
    · intro _ sl hsl; exact Or.inl hsl
  | cons iv rest ih =>
    intro st hst
    have hfold : (iv :: rest).foldl (sweepStep dur now) st =
        rest.foldl (sweepStep dur now) (sweepStep dur now st iv) := rfl
    have hcur : (sweepStep dur now st iv).cur =
        if st.cur < iv.2 then iv.2 else st.cur := rfl
    have hslots : (sweepStep dur now st iv).slots =
        if st.cur < iv.1 ∧ now < iv.1 ∧ dur ≤ iv.1 - st.cur then
          st.slots ++ [⟨max st.cur now, iv.1, iv.1 - st.cur⟩]
        else st.slots := rfl
    have hle : st.cur ≤ (sweepStep dur now st iv).cur := by
      rw [hcur]; split <;> omega
    have hivle : iv.2 ≤ (sweepStep dur now st iv).cur := by
      rw [hcur]; split <;> omega
    have hnow' : now ≤ (sweepStep dur now st iv).cur := Nat.le_trans hst hle
    obtain ⟨⟨h1a, h1b⟩, h2, h3, h4⟩ := ih (sweepStep dur now st iv) hnow'
    rw [hfold]
    have hmax : max st.cur now = st.cur := Nat.max_eq_left hst
    have hhandle : ∀ sl, sl ∈ (sweepStep dur now st iv).slots →
        sl ∈ st.slots ∨
          (st.cur ≤ sl.startT ∧ sl.startT < sl.endT ∧
            sl.durationMinutes = sl.endT - sl.startT ∧ dur ≤ sl.durationMinutes) := by
      intro sl hmem
      rw [hslots] at hmem
      by_cases hc : st.cur < iv.1 ∧ now < iv.1 ∧ dur ≤ iv.1 - st.cur
      · rw [if_pos hc] at hmem
        rcases List.mem_append.mp hmem with h | h
        · exact Or.inl h
        · rcases List.mem_singleton.mp h with rfl
          refine Or.inr ⟨?_, ?_, ?_, ?_⟩
          · exact Nat.le_max_left _ _
          · show max st.cur now < iv.1
            rw [hmax]; exact hc.1
          · show iv.1 - st.cur = iv.1 - max st.cur now
            rw [hmax]
          · exact hc.2.2
      · rw [if_neg hc] at hmem; exact Or.inl hmem
    refine ⟨⟨h1a, Nat.le_trans hle h1b⟩, ?_, ?_, ?_⟩
    · intro iv' hiv'
      rcases List.mem_cons.mp hiv' with h | h
      · subst h; exact Nat.le_trans hivle h1b
      · exact h2 iv' h
    · intro sl hsl
      rcases h3 sl hsl with hmem | hnewp
      · exact hhandle sl hmem
      · exact Or.inr ⟨Nat.le_trans hle hnewp.1, hnewp.2.1, hnewp.2.2.1, hnewp.2.2.2⟩
    · intro hp sl hsl
      rw [List.pairwise_cons] at hp
      obtain ⟨hp1, hp2⟩ := hp
      have hhandle2 : sl ∈ (sweepStep dur now st iv).slots →
          sl ∈ st.slots ∨ ∀ iv' ∈ iv :: rest, iv'.2 ≤ sl.startT ∨ sl.endT ≤ iv'.1 := by
        intro hmem
        rw [hslots] at hmem
        by_cases hc : st.cur < iv.1 ∧ now < iv.1 ∧ dur ≤ iv.1 - st.cur
        · rw [if_pos hc] at hmem
          rcases List.mem_append.mp hmem with h | h
          · exact Or.inl h
          · rcases List.mem_singleton.mp h with rfl
            refine Or.inr ?_
            intro iv' hiv'
            rcases List.mem_cons.mp hiv' with h' | h'
            · subst h'; right; exact Nat.le_refl _
            · right
              show (⟨max st.cur now, iv.1, iv.1 - st.cur⟩ : FreeSlot).endT ≤ iv'.1
              exact hp1 iv' h'
        · rw [if_neg hc] at hmem; exact Or.inl hmem
      rcases h4 hp2 sl hsl with hmem | hno
      · exact hhandle2 hmem
      · rcases h3 sl hsl with hmem | hnewp
        · exact hhandle2 hmem
        · refine Or.inr ?_
          intro iv' hiv'
          rcases List.mem_cons.mp hiv' with h' | h'
          · subst h'; exact Or.inl (Nat.le_trans hivle hnewp.1)
          · exact hno iv' h'

/-- Every slot produced by the core computation reports its exact length,
meets the minimum duration, and starts strictly after `now`. -/
theorem get_free_slots_core_props (ivs : List (Nat × Nat))
    (startDt endDt dur now : Nat) :
    ∀ sl ∈ get_free_slots_core ivs startDt endDt dur now,
      sl.durationMinutes = sl.endT - sl.startT ∧ dur ≤ sl.durationMinutes ∧
        now < sl.startT := by
  intro sl hsl
  simp only [get_free_slots_core] at hsl
  rw [List.mem_filter] at hsl
  obtain ⟨hmem, hfut⟩ := hsl
  have hfut' : now < sl.startT := of_decide_eq_true hfut
  have hnow0 : now ≤ (if startDt < now then now else startDt) := by split <;> omega
  obtain ⟨⟨hnr, hcr⟩, hends, hnew, _⟩ :=
    sweep_foldl_spec dur now ivs ⟨[], if startDt < now then now else startDt⟩ hnow0
  by_cases hc :
      (ivs.foldl (sweepStep dur now)
          ⟨[], if startDt < now then now else startDt⟩).cur < endDt ∧
        dur ≤ endDt -
          (ivs.foldl (sweepStep dur now)
            ⟨[], if startDt < now then now else startDt⟩).cur ∧
        max (ivs.foldl (sweepStep dur now)
            ⟨[], if startDt < now then now else startDt⟩).cur now < endDt
  · rw [if_pos hc] at hmem
    rcases List.mem_append.mp hmem with h | h
    · rcases hnew sl h with h0 | hprop
      · simp at h0
      · exact ⟨hprop.2.2.1, hprop.2.2.2, hfut'⟩
    · rcases List.mem_singleton.mp h with rfl
      have hmaxeq : max (ivs.foldl (sweepStep dur now)
          ⟨[], if startDt < now then now else startDt⟩).cur now =
          (ivs.foldl (sweepStep dur now)
            ⟨[], if startDt < now then now else startDt⟩).cur :=
        Nat.max_eq_left hnr
      refine ⟨?_, ?_, hfut'⟩
      · show endDt -
            (ivs.foldl (sweepStep dur now)
              ⟨[], if startDt < now then now else startDt⟩).cur =
          endDt - max (ivs.foldl (sweepStep dur now)
              ⟨[], if startDt < now then now else startDt⟩).cur now
        rw [hmaxeq]
      · exact hc.2.1
  · rw [if_neg hc] at hmem
    rcases hnew sl hmem with h0 | hprop
    · simp at h0
    · exact ⟨hprop.2.2.1, hprop.2.2.2, hfut'⟩

/-- When the parsed busy intervals are sorted by start, no slot produced by
the core computation overlaps any of them. -/
theorem get_free_slots_core_no_overlap (ivs : List (Nat × Nat))
    (startDt endDt dur now : Nat)
    (hsorted : ivs.Pairwise (fun a b => a.1 ≤ b.1)) :
    ∀ sl ∈ get_free_slots_core ivs startDt endDt dur now,
      ∀ iv ∈ ivs, iv.2 ≤ sl.startT ∨ sl.endT ≤ iv.1 := by
  intro sl hsl
  simp only [get_free_slots_core] at hsl
  rw [List.mem_filter] at hsl
  obtain ⟨hmem, _⟩ := hsl
  have hnow0 : now ≤ (if startDt < now then now else startDt) := by split <;> omega
  obtain ⟨⟨hnr, hcr⟩, hends, hnew, hov⟩ :=
    sweep_foldl_spec dur now ivs ⟨[], if startDt < now then now else startDt⟩ hnow0
  by_cases hc :
      (ivs.foldl (sweepStep dur now)
          ⟨[], if startDt < now then now else startDt⟩).cur < endDt ∧
        dur ≤ endDt -
          (ivs.foldl (sweepStep dur now)
            ⟨[], if startDt < now then now else startDt⟩).cur ∧
        max (ivs.foldl (sweepStep dur now)
            ⟨[], if startDt < now then now else startDt⟩).cur now < endDt
  · rw [if_pos hc] at hmem
    rcases List.mem_append.mp hmem with h | h
    · rcases hov hsorted sl h with h0 | hno
      · simp at h0
      · exact hno
    · rcases List.mem_singleton.mp h with rfl
      intro iv hiv
      left
      show iv.2 ≤ max (ivs.foldl (sweepStep dur now)
          ⟨[], if startDt < now then now else startDt⟩).cur now
      rw [Nat.max_eq_left hnr]
      exact hends iv hiv
  · rw [if_neg hc] at hmem
    rcases hov hsorted sl hmem with h0 | hno
    · simp at h0
    · exact hno

/-- Membership transport through `parseAll`. -/
theorem parseAll_mem :
    ∀ (events : List GEvent) (ivs : List (Nat × Nat)),
      parseAll events = some ivs →
      ∀ ev ∈ events, ∀ p, ev.intervalOf = some p → p ∈ ivs := by
  intro events
  induction events with
  | nil => intro ivs _ ev hev; simp at hev
  | cons e rest ih =>
    intro ivs h ev hev p hp
    unfold parseAll at h
    cases h1 : e.intervalOf with
    | none => rw [h1] at h; simp at h
    | some q =>
      rw [h1] at h
      cases h2 : parseAll rest with
      | none => rw [h2] at h; simp at h
      | some ps =>
        rw [h2] at h
        simp only [Option.some.injEq] at h
        subst h
        rcases List.mem_cons.mp hev with h' | h'
        · subst h'
          rw [h1] at hp
          simp only [Option.some.injEq] at hp
          subst hp
          exact List.mem_cons_self _ _
        · exact List.mem_cons_of_mem _ (ih ps h2 ev h' p hp)

/-- Claim C1: for every query window, minimum duration, evaluation time
`now`, and busy list sorted by start, no free slot returned by
`get_free_slots` overlaps any non-all-day busy interval of the list in the
half-open sense (`slot.start < busy.end` and `slot.end > busy.start`). -/
theorem free_slots_no_overlap (events : List GEvent)
    (startDt endDt dur now : Nat) (ivs : List (Nat × Nat))
    (hp : parseAll events = some ivs)
    (hsorted : ivs.Pairwise (fun a b => a.1 ≤ b.1)) :
    ∀ sl ∈ get_free_slots true (some events) startDt endDt dur now,
      ∀ ev ∈ events, ev.isAllDay = false →
        ∀ s e, ev.intervalOf = some (s, e) →
          ¬ (sl.startT < e ∧ s < sl.endT) := by
  intro sl hsl ev hev _ s e hint
  have hmem : (s, e) ∈ ivs := parseAll_mem events ivs hp ev hev (s, e) hint
  unfold get_free_slots at hsl
  simp only [Bool.true_eq_false, if_false] at hsl
  rw [hp] at hsl
  have := get_free_slots_core_no_overlap ivs startDt endDt dur now hsorted sl hsl
    (s, e) hmem
  omega

/-- Claim C1 witness: on the concrete window 10-200 with minimum duration 30,
`now = 0`, and the single busy interval 60-90, the returned slot 90-200 does
not overlap the busy interval. -/
theorem free_slots_no_overlap_witness :
    ¬ ((⟨90, 200, 110⟩ : FreeSlot).startT < 90 ∧
        60 < (⟨90, 200, 110⟩ : FreeSlot).endT) :=
  free_slots_no_overlap exEvents 10 200 30 0 [(60, 90)] rfl (by decide)
    ⟨90, 200, 110⟩ (by decide)
    ⟨GTime.dateTime 60, GTime.dateTime 90, "Meeting"⟩ (by decide) (by decide)
    60 90 rfl

/-- Claim C2: every slot returned by `get_free_slots` reports a duration
equal to its length in minutes and at least the requested minimum, and
starts strictly after `now` (and the result is a plain list, so "no
qualifying gap" is the empty list, never an error). -/
theorem free_slots_duration_and_future (available : Bool)
    (fetch : Option (List GEvent)) (startDt endDt dur now : Nat) :
    ∀ sl ∈ get_free_slots available fetch startDt endDt dur now,
      sl.durationMinutes = sl.endT - sl.startT ∧ dur ≤ sl.durationMinutes ∧
        now < sl.startT := by
  intro sl hsl
  unfold get_free_slots at hsl
  cases available with
  | false => simp at hsl
  | true =>
    simp only [Bool.true_eq_false, if_false] at hsl
    cases fetch with
    | none => simp at hsl
    | some events =>
      have hsl' : sl ∈ (match parseAll events with
          | none => ([] : List FreeSlot)
          | some ivs => get_free_slots_core ivs startDt endDt dur now) := hsl
      cases hpe : parseAll events with
      | none => rw [hpe] at hsl'; simp at hsl'
      | some ivs =>
        rw [hpe] at hsl'
        exact get_free_slots_core_props ivs startDt endDt dur now sl hsl'

/-- Claim C2 witness: the concrete slot 10-60 returned in the witness
scenario reports duration 50 = 60 - 10, at least the minimum 30, and starts
strictly after `now = 0`. -/
theorem free_slots_duration_and_future_witness :
    (⟨10, 60, 50⟩ : FreeSlot).durationMinutes =
        (⟨10, 60, 50⟩ : FreeSlot).endT - (⟨10, 60, 50⟩ : FreeSlot).startT ∧
      30 ≤ (⟨10, 60, 50⟩ : FreeSlot).durationMinutes ∧
      0 < (⟨10, 60, 50⟩ : FreeSlot).startT :=
  free_slots_duration_and_future true (some exEvents) 10 200 30 0
    ⟨10, 60, 50⟩ (by decide)

/-- Claim C3 counterexample: with window 10-100, minimum duration 30 and
`now = 0`, a fetch failure makes `get_free_slots` return the empty list,
not the clipped-window gap 10-100 that "treat the busy set as empty" (the
same call with an empty busy list) produces. -/
theorem free_slots_fetch_failure_counterexample :
    get_free_slots false none 10 100 30 0 = [] ∧
      get_free_slots true none 10 100 30 0 = [] ∧
      get_free_slots true (some []) 10 100 30 0 = [⟨10, 100, 90⟩] ∧
      ([] : List FreeSlot) ≠ [⟨10, 100, 90⟩] := by decide

/-- Claim C3 (amended): when the calendar is unavailable or the busy fetch
raises, `get_free_slots` returns the empty list — no error propagates, but
no degraded clipped-window gap is produced either. -/
theorem free_slots_fetch_failure_empty :
    (∀ (fetch : Option (List GEvent)) (startDt endDt dur now : Nat),
      get_free_slots false fetch startDt endDt dur now = []) ∧
    (∀ startDt endDt dur now : Nat,
      get_free_slots true none startDt endDt dur now = []) :=
  ⟨fun _ _ _ _ _ => rfl, fun _ _ _ _ => rfl⟩

/-- Claim C4 counterexample: removing the single all-day busy interval
(covering day zero) from the list changes the free slots returned for
window 10-100 with minimum duration 30 and `now = 0`: the all-day event
blocks the whole window. -/
theorem allday_blocks_free_slots_counterexample :
    get_free_slots true (some exAllDay) 10 100 30 0 = [] ∧
      get_free_slots true
          (some (exAllDay.filter (fun e => ! e.isAllDay))) 10 100 30 0 =
        [⟨10, 100, 90⟩] ∧
      ([] : List FreeSlot) ≠ [⟨10, 100, 90⟩] := by decide

/-- The conflict scan skips an event without two parseable timed bounds. -/
theorem conflictScan_cons_skip (candS candE : Nat) (ev : GEvent)
    (rest : List GEvent) (h : ev.timedOf = none) :
    conflictScan candS candE (ev :: rest) = conflictScan candS candE rest := by
  rcases ev with ⟨gs, ge, sm⟩
  cases gs <;> cases ge <;> first
    | rfl
    | simp [GEvent.timedOf] at h

/-- The conflict scan on an event with timed bounds performs the half-open
overlap test. -/
theorem conflictScan_cons_timed (candS candE : Nat) (ev : GEvent)
    (rest : List GEvent) (s e : Nat) (h : ev.timedOf = some (s, e)) :
    conflictScan candS candE (ev :: rest) =
      if candS < e ∧ s < candE then (true, some (conflictMsg ev.summary s e))
      else conflictScan candS candE rest := by
  rcases ev with ⟨gs, ge, sm⟩
  cases gs <;> cases ge <;> simp only [GEvent.timedOf] at h
  case dateTime.dateTime s0 e0 =>
    simp only [Option.some.injEq, Prod.mk.injEq] at h
    obtain ⟨hs, he⟩ := h
    subst hs; subst he
    rfl
  all_goals cases h

/-- An event recognized as all-day by the scan's criterion has no timed
bounds. -/
theorem timedOf_eq_none_of_isAllDay (ev : GEvent) (h : ev.isAllDay = true) :
    ev.timedOf = none := by
  rcases ev with ⟨gs, ge, sm⟩
  cases gs with
  | date t => cases ge <;> rfl
  | dateTime s => simp [GEvent.isAllDay] at h
  | malformed => simp [GEvent.isAllDay] at h

/-- The conflict scan is unchanged by removing all-day events: they are
skipped by the scan itself. -/
theorem conflictScan_filter_allday (candS candE : Nat) :
    ∀ events : List GEvent,
      conflictScan candS candE (events.filter (fun e => ! e.isAllDay)) =
        conflictScan candS candE events := by
  intro events
  induction events with
  | nil => rfl
  | cons ev rest ih =>
    by_cases had : ev.isAllDay = true
    · have hfil : (ev :: rest).filter (fun e => ! e.isAllDay) =
          rest.filter (fun e => ! e.isAllDay) := by
        simp [List.filter_cons, had]
      rw [hfil,
        conflictScan_cons_skip candS candE ev rest (timedOf_eq_none_of_isAllDay ev had)]
      exact ih
    · have hfil : (ev :: rest).filter (fun e => ! e.isAllDay) =
          ev :: rest.filter (fun e => ! e.isAllDay) := by
        simp only [Bool.not_eq_true] at had
        simp [List.filter_cons, had]
      rw [hfil]
      cases htod : ev.timedOf with
      | none =>
        rw [conflictScan_cons_skip candS candE ev _ htod,
          conflictScan_cons_skip candS candE ev _ htod]
        exact ih
      | some pr =>
        obtain ⟨s, e⟩ := pr
        rw [conflictScan_cons_timed candS candE ev _ s e htod,
          conflictScan_cons_timed candS candE ev _ s e htod, ih]

/-- Claim C4 (amended): all-day busy intervals are non-blocking in the
conflict detector — its verdict is unchanged when they are removed — while
`get_free_slots` treats all-day events as busy for their parsed span, as
the counterexample shows. -/
theorem conflict_verdict_ignores_allday (available : Bool)
    (events : List GEvent) (candS candE : Nat) :
    check_time_conflict available
        (some (events.filter (fun e => ! e.isAllDay))) candS candE =
      check_time_conflict available (some events) candS candE := by
  cases available with
  | false => rfl
  | true => exact conflictScan_filter_allday candS candE events

/-- The conflict scan reports a conflict exactly when some timed event of
the list overlaps the candidate in the half-open sense. -/
theorem conflictScan_eq_true_iff (candS candE : Nat) :
    ∀ events : List GEvent,
      (conflictScan candS candE events).1 = true ↔
        ∃ ev ∈ events, ∃ s e, ev.timedOf = some (s, e) ∧
          candS < e ∧ s < candE := by
  intro events
  induction events with
  | nil => simp [conflictScan]
  | cons ev rest ih =>
    cases htod : ev.timedOf with
    | none =>
      rw [conflictScan_cons_skip candS candE ev rest htod, ih]
      constructor
      · rintro ⟨ev', hev', s', e', h1, h2, h3⟩
        exact ⟨ev', List.mem_cons_of_mem _ hev', s', e', h1, h2, h3⟩
      · rintro ⟨ev', hev', s', e', h1, h2, h3⟩
        rcases List.mem_cons.mp hev' with heq | hmem
        · subst heq; rw [htod] at h1; cases h1
        · exact ⟨ev', hmem, s', e', h1, h2, h3⟩
    | some pr =>
      obtain ⟨s, e⟩ := pr
      rw [conflictScan_cons_timed candS candE ev rest s e htod]
      by_cases hov : candS < e ∧ s < candE
      · rw [if_pos hov]
        constructor
        · intro _
          exact ⟨ev, List.mem_cons_self _ _, s, e, htod, hov.1, hov.2⟩
        · intro _; rfl
      · rw [if_neg hov, ih]
        constructor
        · rintro ⟨ev', hev', s', e', h1, h2, h3⟩
          exact ⟨ev', List.mem_cons_of_mem _ hev', s', e', h1, h2, h3⟩
        · rintro ⟨ev', hev', s', e', h1, h2, h3⟩
          rcases List.mem_cons.mp hev' with heq | hmem
          · subst heq
            rw [htod] at h1
            simp only [Option.some.injEq, Prod.mk.injEq] at h1
            obtain ⟨h1s, h1e⟩ := h1
            subst h1s; subst h1e
            exact absurd ⟨h2, h3⟩ hov
          · exact ⟨ev', hmem, s', e', h1, h2, h3⟩

/-- Claim C8: the conflict detector reports a conflict iff some non-all-day
(timed, parseable) busy interval satisfies `candidate.start < busy.end` and
`candidate.end > busy.start`; in particular a candidate equal to a nonempty
timed busy interval conflicts, and a candidate separated from every timed
busy interval does not. -/
theorem conflict_iff_overlap (candS candE : Nat) (events : List GEvent) :
    ((check_time_conflict true (some events) candS candE).1 = true ↔
      ∃ ev ∈ events, ∃ s e, ev.timedOf = some (s, e) ∧
        candS < e ∧ s < candE) ∧
    (∀ ev ∈ events, ∀ s e, ev.timedOf = some (s, e) → s < e →
      (check_time_conflict true (some events) s e).1 = true) ∧
    ((∀ ev ∈ events, ∀ s e, ev.timedOf = some (s, e) →
        candE ≤ s ∨ e ≤ candS) →
      (check_time_conflict true (some events) candS candE).1 = false) := by
  refine ⟨conflictScan_eq_true_iff candS candE events, ?_, ?_⟩
  · intro ev hev s e hse hlt
    exact (conflictScan_eq_true_iff s e events).mpr
      ⟨ev, hev, s, e, hse, hlt, hlt⟩
  · intro hsep
    cases hb : (check_time_conflict true (some events) candS candE).1 with
    | false => rfl
    | true =>
      obtain ⟨ev, hev, s, e, hse, h1, h2⟩ :=
        (conflictScan_eq_true_iff candS candE events).mp hb
      rcases hsep ev hev s e hse with h | h <;> omega

/-- Claim C8 witness: a candidate equal to the busy interval 60-90 of the
witness event list yields a conflict. -/
theorem conflict_iff_overlap_witness :
    (check_time_conflict true (some exEvents) 60 90).1 = true :=
  (conflict_iff_overlap 60 90 exEvents).2.1
    ⟨GTime.dateTime 60, GTime.dateTime 90, "Meeting"⟩ (by decide) 60 90 rfl
    (by decide)

/-- A scan over events none of which carries two parseable `dateTime`
values returns the fail-open result. -/
theorem conflictScan_all_skipped (candS candE : Nat) :
    ∀ events : List GEvent, (∀ ev ∈ events, ev.timedOf = none) →
      conflictScan candS candE events = (false, none) := by
  intro events
  induction events with
  | nil => intro _; rfl
  | cons ev rest ih =>
    intro hall
    have h1 : ev.timedOf = none := hall ev (List.mem_cons_self _ _)
    have h2 : ∀ e ∈ rest, e.timedOf = none :=
      fun e he => hall e (List.mem_cons_of_mem _ he)
    rcases ev with ⟨gs, ge, sm⟩
    cases gs with
    | date t => cases ge <;> simpa [conflictScan] using ih h2
    | malformed => cases ge <;> simpa [conflictScan] using ih h2
    | dateTime s =>
      cases ge with
      | dateTime e => simp [GEvent.timedOf] at h1
      | date t => simpa [conflictScan] using ih h2
      | malformed => simpa [conflictScan] using ih h2

/-- Claim C9: the conflict detector is fail-open and total: when the
calendar is unavailable, when the busy fetch raises, or when every fetched
event fails to supply parseable timed bounds, it returns
`(False, None)` instead of propagating a failure. -/
theorem conflict_check_fail_open :
    (∀ (fetch : Option (List GEvent)) (candS candE : Nat),
      check_time_conflict false fetch candS candE = (false, none)) ∧
    (∀ candS candE : Nat,
      check_time_conflict true none candS candE = (false, none)) ∧
    (∀ (events : List GEvent) (candS candE : Nat),
      (∀ ev ∈ events, ev.timedOf = none) →
      check_time_conflict true (some events) candS candE = (false, none)) :=
  ⟨fun _ _ _ => rfl, fun _ _ => rfl,
    fun events candS candE hall => conflictScan_all_skipped candS candE events hall⟩

/-- Claim C9 witness: a fetched list holding one unparsable event yields the
fail-open result for the candidate 0-10. -/
theorem conflict_check_fail_open_witness :
    check_time_conflict true (some [⟨GTime.malformed, GTime.malformed, "x"⟩])
        0 10 = (false, none) :=
  conflict_check_fail_open.2.2 [⟨GTime.malformed, GTime.malformed, "x"⟩] 0 10
    (by decide)

/-- Claim C6 counterexample: at `now = 64` (minute 4 past the hour) the
`now` keyword resolves to 65, the next 5-minute boundary, which is only one
minute after `now` — the claimed 5-minute floor does not hold.  And an
explicit spec more than a day in the past (instant 0 at `now = 3000`)
resolves to `now + 5 = 3005`, which is not the same time-of-day pushed by
whole days (3005 and 0 differ modulo 1440). -/
theorem resolve_start_counterexample :
    resolve_start_time StartTime.nowKw 64 = 65 ∧ 65 - 64 < 5 ∧
      resolve_start_time (StartTime.explicitT 0) 3000 = 3005 ∧
      3005 % 1440 ≠ 0 % 1440 := by decide

/-- Claim C6 (amended): for every recognized time spec and evaluation time
`now`, the resolved instant is strictly later than `now`; the `now` keyword
rounds up to the next 5-minute boundary, which may be less than 5 minutes
after `now`; any other spec resolving to a past instant is pushed forward
one calendar day, and if that still does not land strictly after `now` the
final safety check sets it to `now + 5` minutes. -/
theorem resolve_start_always_future (s : StartTime) (now : Nat) :
    now < resolve_start_time s now := by
  cases s <;>
    simp only [resolve_start_time, resolve_start_time_raw] <;>
    (repeat' split) <;> omega

/-- Claim C7: each daily keyword resolves to its fixed hour today when that
hour is still ahead, and to the same hour on the next calendar day once it
has passed (`now = d * 1440 + m` is minute `m` of day `d`; morning is
minute 540 = 09:00, afternoon 840 = 14:00, evening 1140 = 19:00). -/
theorem daily_keyword_roll_forward (d m : Nat) (hm : m < 1440) :
    (m < 540 →
      resolve_start_time StartTime.today_morning (d * 1440 + m) =
        d * 1440 + 540) ∧
    (540 ≤ m →
      resolve_start_time StartTime.today_morning (d * 1440 + m) =
        (d + 1) * 1440 + 540) ∧
    (m < 840 →
      resolve_start_time StartTime.today_afternoon (d * 1440 + m) =
        d * 1440 + 840) ∧
    (840 ≤ m →
      resolve_start_time StartTime.today_afternoon (d * 1440 + m) =
        (d + 1) * 1440 + 840) ∧
    (m < 1140 →
      resolve_start_time StartTime.today_evening (d * 1440 + m) =
        d * 1440 + 1140) ∧
    (1140 ≤ m →
      resolve_start_time StartTime.today_evening (d * 1440 + m) =
        (d + 1) * 1440 + 1140) := by
  have hmod : (d * 1440 + m) % 1440 = m := by omega
  refine ⟨?_, ?_, ?_, ?_, ?_, ?_⟩ <;> intro h <;>
    simp only [resolve_start_time, resolve_start_time_raw, hmod] <;>
    (repeat' split) <;> omega

/-- Claim C7 witness: `today_morning` requested at 08:00 of day zero
(minute 480) resolves to 09:00 the same day (minute 540); requested at
10:00 (minute 600) it resolves to 09:00 the next day (minute 1980). -/
theorem daily_keyword_roll_forward_witness :
    resolve_start_time StartTime.today_morning 480 = 540 ∧
      resolve_start_time StartTime.today_morning 600 = 1980 :=
  ⟨(daily_keyword_roll_forward 0 480 (by decide)).1 (by decide),
    (daily_keyword_roll_forward 0 600 (by decide)).2.1 (by decide)⟩

/-- Membership through the first-occurrence dedup fold. -/
theorem dedupFirst_aux (x : Nat) :
    ∀ (l acc : List Nat),
      (x ∈ l.foldl (fun acc h => if h ∈ acc then acc else acc ++ [h]) acc ↔
        x ∈ acc ∨ x ∈ l) := by
  intro l
  induction l with
  | nil => intro acc; simp
  | cons h t ih =>
    intro acc
    rw [List.foldl_cons, ih]
    by_cases hmem : h ∈ acc
    · rw [if_pos hmem]
      simp only [List.mem_cons]
      constructor
      · rintro (hx | hx)
        · exact Or.inl hx
        · exact Or.inr (Or.inr hx)
      · rintro (hx | (rfl | hx))
        · exact Or.inl hx
        · exact Or.inl hmem
        · exact Or.inr hx
    · rw [if_neg hmem]
      simp only [List.mem_append, List.mem_singleton, List.mem_cons]
      tauto

/-- `dedupFirst` preserves membership. -/
theorem dedupFirst_mem (l : List Nat) (x : Nat) : x ∈ dedupFirst l ↔ x ∈ l := by
  unfold dedupFirst
  rw [dedupFirst_aux]
  simp

/-- Membership through `insertDesc`. -/
theorem insertDesc_mem (key : Nat → Nat) (h x : Nat) :
    ∀ l : List Nat, (x ∈ insertDesc key h l ↔ x = h ∨ x ∈ l) := by
  intro l
  induction l with
  | nil => simp [insertDesc]
  | cons y ys ih =>
    simp only [insertDesc]
    by_cases hlt : key y < key h
    · rw [if_pos hlt]
      simp [List.mem_cons]
    · rw [if_neg hlt]
      simp only [List.mem_cons, ih]
      tauto

/-- `insertDesc` preserves descending sortedness by `key`. -/
theorem insertDesc_sorted (key : Nat → Nat) (h : Nat) :
    ∀ l : List Nat, l.Pairwise (fun a b => key b ≤ key a) →
      (insertDesc key h l).Pairwise (fun a b => key b ≤ key a) := by
  intro l
  induction l with
  | nil =>
    intro _
    simp [insertDesc]
  | cons y ys ih =>
    intro hs
    rw [List.pairwise_cons] at hs
    obtain ⟨hy, hys⟩ := hs
    simp only [insertDesc]
    by_cases hlt : key y < key h
    · rw [if_pos hlt, List.pairwise_cons]
      constructor
      · intro b hb
        rcases List.mem_cons.mp hb with rfl | hb
        · omega
        · have := hy b hb; omega
      · rw [List.pairwise_cons]
        exact ⟨hy, hys⟩
    · rw [if_neg hlt, List.pairwise_cons]
      constructor
      · intro b hb
        rcases (insertDesc_mem key h b ys).mp hb with rfl | hb
        · omega
        · exact hy b hb
      · exact ih hys

/-- Membership through the insertion-sort fold. -/
theorem sortDesc_mem_aux (key : Nat → Nat) (x : Nat) :
    ∀ (l acc : List Nat),
      (x ∈ l.foldl (fun acc h => insertDesc key h acc) acc ↔
        x ∈ acc ∨ x ∈ l) := by
  intro l
  induction l with
  | nil => intro acc; simp
  | cons h t ih =>
    intro acc
    rw [List.foldl_cons, ih, insertDesc_mem]
    simp only [List.mem_cons]
    tauto

/-- `sortDesc` preserves membership. -/
theorem sortDesc_mem (key : Nat → Nat) (l : List Nat) (x : Nat) :
    x ∈ sortDesc key l ↔ x ∈ l := by
  unfold sortDesc
  rw [sortDesc_mem_aux]
  simp

/-- The insertion-sort fold keeps its accumulator sorted. -/
theorem sortDesc_sorted_aux (key : Nat → Nat) :
    ∀ (l acc : List Nat), acc.Pairwise (fun a b => key b ≤ key a) →
      (l.foldl (fun acc h => insertDesc key h acc) acc).Pairwise
        (fun a b => key b ≤ key a) := by
  intro l
  induction l with
  | nil => intro acc hacc; exact hacc
  | cons h t ih =>
    intro acc hacc
    rw [List.foldl_cons]
    exact ih _ (insertDesc_sorted key h acc hacc)

/-- `sortDesc` sorts descending by `key`. -/
theorem sortDesc_sorted (key : Nat → Nat) (l : List Nat) :
    (sortDesc key l).Pairwise (fun a b => key b ≤ key a) := by
  unfold sortDesc
  exact sortDesc_sorted_aux key l [] List.Pairwise.nil

/-- In a descending-sorted list, every kept prefix element dominates every
dropped suffix element. -/
theorem sorted_take_drop (key : Nat → Nat) (l : List Nat)
    (hs : l.Pairwise (fun a b => key b ≤ key a)) (n : Nat) :
    ∀ x ∈ l.take n, ∀ y ∈ l.drop n, key y ≤ key x := by
  have happ : (l.take n ++ l.drop n).Pairwise (fun a b => key b ≤ key a) := by
    rw [List.take_append_drop]
    exact hs
  exact (List.pairwise_append.mp happ).2.2

/-- The first three entries of the stable descending-by-count sort are drawn
from `hs` and each dominates, in frequency, every hour of `hs` left out. -/
theorem mostCommon_take3_spec (hs : List Nat) :
    ((sortDesc (fun h => hs.count h) (dedupFirst hs)).take 3).length ≤ 3 ∧
    (∀ h ∈ (sortDesc (fun h => hs.count h) (dedupFirst hs)).take 3, h ∈ hs) ∧
    (∀ h ∈ (sortDesc (fun h => hs.count h) (dedupFirst hs)).take 3,
      ∀ h2 ∈ hs, h2 ∉ (sortDesc (fun h => hs.count h) (dedupFirst hs)).take 3 →
        hs.count h2 ≤ hs.count h) := by
  have hsort := sortDesc_sorted (fun h => hs.count h) (dedupFirst hs)
  have hmem : ∀ x, x ∈ sortDesc (fun h => hs.count h) (dedupFirst hs) ↔ x ∈ hs := by
    intro x
    rw [sortDesc_mem, dedupFirst_mem]
  refine ⟨?_, ?_, ?_⟩
  · rw [List.length_take]
    exact Nat.min_le_left _ _
  · intro h hh
    exact (hmem h).mp (List.take_subset _ _ hh)
  · intro h hh h2 hh2 hnot
    have h2sorted : h2 ∈ sortDesc (fun h => hs.count h) (dedupFirst hs) :=
      (hmem h2).mpr hh2
    have h2app : h2 ∈ (sortDesc (fun h => hs.count h) (dedupFirst hs)).take 3 ++
        (sortDesc (fun h => hs.count h) (dedupFirst hs)).drop 3 := by
      rw [List.take_append_drop]
      exact h2sorted
    rcases List.mem_append.mp h2app with hcase | hcase
    · exact absurd hcase hnot
    · exact sorted_take_drop (fun h => hs.count h)
        (sortDesc (fun h => hs.count h) (dedupFirst hs)) hsort 3 h hh h2 hcase

/-- Claim C5 counterexample: on the concrete history with extracted hours
10, 10, 11, 12, 9 (in that order), the code's `preferred_hours` is
`[10, 11, 12]` by first-occurrence tie-breaking, while the spec's
smallest-hour tie-breaking demands `[10, 9, 11]`: hour 9 is selected by the
spec but not by the code.  Reversing the history (same multiset of hours)
changes the code's output to `[10, 9, 12]`, so the result is not
order-independent either. -/
theorem preferred_hours_counterexample :
    (analyze_preferred_times exHistory).preferred_hours = [10, 11, 12] ∧
      specPreferredHours (scheduledHours exHistory) = [10, 9, 11] ∧
      9 ∈ specPreferredHours (scheduledHours exHistory) ∧
      9 ∉ (analyze_preferred_times exHistory).preferred_hours ∧
      scheduledHours exHistoryRev = (scheduledHours exHistory).reverse ∧
      (analyze_preferred_times exHistoryRev).preferred_hours = [10, 9, 12] ∧
      (analyze_preferred_times exHistoryRev).preferred_hours ≠
        (analyze_preferred_times exHistory).preferred_hours := by decide

/-- Claim C5 (amended): `preferred_hours` is a list of at most three hours
drawn from the extracted hours of confirmed calendar actions, each at least
as frequent as every extracted hour left out; frequency ties are broken by
first occurrence in history order (`Counter` insertion order), so the result
depends on the order of the history, not only on the multiset of hours. -/
theorem preferred_hours_selection (recent : List ActionRec) :
    (analyze_preferred_times recent).preferred_hours.length ≤ 3 ∧
    (∀ h ∈ (analyze_preferred_times recent).preferred_hours,
      h ∈ scheduledHours recent) ∧
    (∀ h ∈ (analyze_preferred_times recent).preferred_hours,
      ∀ h2 ∈ scheduledHours recent,
        h2 ∉ (analyze_preferred_times recent).preferred_hours →
          (scheduledHours recent).count h2 ≤ (scheduledHours recent).count h) := by
  by_cases hemp : scheduledHours recent = []
  · simp [analyze_preferred_times, hemp]
  · have hred : (analyze_preferred_times recent).preferred_hours =
        (sortDesc (fun h => (scheduledHours recent).count h)
          (dedupFirst (scheduledHours recent))).take 3 := by
      simp [analyze_preferred_times, hemp]
    rw [hred]
    exact mostCommon_take3_spec (scheduledHours recent)

/-- Claim C5 witness: on the concrete history, hour 10 is selected and hour
9 is left out, and indeed 9 occurs no more often than 10. -/
theorem preferred_hours_selection_witness :
    (scheduledHours exHistory).count 9 ≤ (scheduledHours exHistory).count 10 :=
  (preferred_hours_selection exHistory).2.2 10 (by decide) 9 (by decide)
    (by decide)

/-- Claim C10: executing a calendar-block action whose `duration_minutes`
lies outside `[5, 240]` returns `success = false` with the
invalid-parameters message, and the result does not depend on the calendar
call's outcome (no event creation is attempted); conversely every execution
reporting success had a duration within `[5, 240]`. -/
theorem calendar_block_duration_validation :
    (∀ (p : CreateCalendarBlockParams) (c c2 : CreateOutcome),
      (p.duration_minutes < 5 ∨ 240 < p.duration_minutes) →
        (_execute_calendar_block p c).success = false ∧
        (_execute_calendar_block p c).message =
          "Invalid calendar block parameters: duration_minutes must be between 5 and 240" ∧
        _execute_calendar_block p c = _execute_calendar_block p c2) ∧
    (∀ (p : CreateCalendarBlockParams) (c : CreateOutcome),
      (_execute_calendar_block p c).success = true →
        5 ≤ p.duration_minutes ∧ p.duration_minutes ≤ 240) := by
  constructor
  · intro p c c2 hout
    have hneg : ¬ (5 ≤ p.duration_minutes ∧ p.duration_minutes ≤ 240) := by omega
    unfold _execute_calendar_block
    rw [if_neg hneg, if_neg hneg]
    exact ⟨rfl, rfl, rfl⟩
  · intro p c hsucc
    by_cases hval : 5 ≤ p.duration_minutes ∧ p.duration_minutes ≤ 240
    · exact hval
    · unfold _execute_calendar_block at hsucc
      rw [if_neg hval] at hsucc
      simp at hsucc

/-- Claim C10 witness: duration 300 is rejected with `success = false`
regardless of the calendar outcome. -/
theorem calendar_block_duration_validation_witness :
    (_execute_calendar_block ⟨300, none, "stretch"⟩
        (CreateOutcome.created "id" "link" "s" "e")).success = false :=
  (calendar_block_duration_validation.1 ⟨300, none, "stretch"⟩
    (CreateOutcome.created "id" "link" "s" "e")
    (CreateOutcome.otherErr "x") (by decide)).1
